import Mathlib

/-!
Verification of the leptos fine-grained reactive runtime, as embedded from
`src/leptos_reactive/src/scope.rs`, `src/leptos_core/src/transition.rs` and
`src/router/src/matching/route.rs`.

The runtime state (slabs of scopes, signals, effects and resources, the
children / cleanup / subscriber / source maps, the current observer cell and
the optional shared context) is represented as a record of association lists
keyed by natural-number ids.  Slab removal is key removal, slotmap generation
tags are modelled by a monotone `next_scope_id` counter (ids are never
reused), closures registered with `on_cleanup` are identified by opaque
natural numbers, and the observable order of disposal is captured by a trace
of events emitted by `dispose`.
-/

namespace Leptos

/-- The `ScopeProperty` enum of `scope.rs`: a reference owned by a scope. -/
inductive ScopeProperty where
  | signal (id : Nat)
  | effect (id : Nat)
  | resource (id : Nat)
deriving DecidableEq, Repr

/-- Observable events of a disposal run: a cleanup callback firing, or an
owned property being removed from the runtime slabs.  Each event is tagged
with the scope whose disposal step produced it. -/
inductive Event where
  | cleanup (scope : Nat) (k : Nat)
  | remove (scope : Nat) (p : ScopeProperty)
deriving DecidableEq, Repr

/-- The scope of an event: the scope whose disposal emitted it. -/
def eventScope : Event → Nat
  | Event.cleanup s _ => s
  | Event.remove s _ => s

/-- The `SharedContext` of the hydration module, restricted to the field used
by `Scope::pending_fragments`: the pending (key, future) map, futures being
identified by opaque natural numbers. -/
structure SharedContext where
  pending_fragments : List (String × Nat) := []
deriving DecidableEq, Repr

/-- The reactive `Runtime` state, as used by `scope.rs`: slabs and maps are
association lists keyed by ids, the observer cell is an optional effect id. -/
structure Runtime where
  next_scope_id : Nat := 0
  scopes : List (Nat × List ScopeProperty) := []
  scope_children : List (Nat × List Nat) := []
  scope_cleanups : List (Nat × List Nat) := []
  signals : List Nat := []
  signal_subscribers : List (Nat × List Nat) := []
  effects : List Nat := []
  effect_sources : List (Nat × List Nat) := []
  resources : List Nat := []
  observer : Option Nat := none
  shared_context : Option SharedContext := none
deriving DecidableEq, Repr

/-! ### Association-list primitives (the slab / secondary-map operations) -/

/-- Lookup by key in an association list (`get` on a slab or map). -/
def lookupA {α : Type} (k : Nat) : List (Nat × α) → Option α
  | [] => none
  | (k', v) :: rest => if k' = k then some v else lookupA k rest

/-- Remove a key from an association list (`remove` on a slab or map,
forgetting the returned value, which callers re-obtain with `lookupA`). -/
def removeA {α : Type} (k : Nat) (m : List (Nat × α)) : List (Nat × α) :=
  m.filter (fun p => p.1 ≠ k)

/-- The `entry(k).or_default().push(v)` pattern of `scope.rs`: append `v` to
the list stored at key `k`, creating the entry if it is absent. -/
def insertAppend (k v : Nat) : List (Nat × List Nat) → List (Nat × List Nat)
  | [] => [(k, [v])]
  | (k', vs) :: rest =>
    if k' = k then (k', vs ++ [v]) :: rest else (k', vs) :: insertAppend k v rest

theorem removeA_nil {α : Type} (k : Nat) : removeA (α := α) k [] = [] := rfl

theorem removeA_cons_self {α : Type} {k k' : Nat} (h : k' = k) (v : α)
    (rest : List (Nat × α)) : removeA k ((k', v) :: rest) = removeA k rest := by
  simp [removeA, List.filter_cons, h]

theorem removeA_cons_ne {α : Type} {k k' : Nat} (h : ¬k' = k) (v : α)
    (rest : List (Nat × α)) :
    removeA k ((k', v) :: rest) = (k', v) :: removeA k rest := by
  simp [removeA, List.filter_cons, h]

theorem lookupA_removeA_self {α : Type} (k : Nat) (m : List (Nat × α)) :
    lookupA k (removeA k m) = none := by
  induction m with
  | nil => rfl
  | cons p rest ih =>
    rcases p with ⟨k', v⟩
    by_cases h : k' = k
    · rw [removeA_cons_self h]; exact ih
    · rw [removeA_cons_ne h, lookupA, if_neg h]; exact ih

theorem lookupA_removeA_ne {α : Type} {k j : Nat} (h : k ≠ j) (m : List (Nat × α)) :
    lookupA k (removeA j m) = lookupA k m := by
  induction m with
  | nil => rfl
  | cons p rest ih =>
    rcases p with ⟨k', v⟩
    by_cases hj : k' = j
    · have hk : ¬k' = k := fun hk => h (hk ▸ hj)
      rw [removeA_cons_self hj, lookupA, if_neg hk]; exact ih
    · rw [removeA_cons_ne hj, lookupA, lookupA]
      by_cases hk : k' = k
      · rw [if_pos hk, if_pos hk]
      · rw [if_neg hk, if_neg hk]; exact ih

theorem lookupA_removeA_some {α : Type} {k j : Nat} {m : List (Nat × α)} {v : α}
    (h : lookupA k (removeA j m) = some v) : lookupA k m = some v := by
  by_cases hkj : k = j
  · subst hkj; rw [lookupA_removeA_self] at h; cases h
  · rwa [lookupA_removeA_ne hkj] at h

theorem removeA_of_lookupA_none {α : Type} {k : Nat} {m : List (Nat × α)}
    (h : lookupA k m = none) : removeA k m = m := by
  induction m with
  | nil => rfl
  | cons p rest ih =>
    rcases p with ⟨k', v⟩
    by_cases hk : k' = k
    · rw [lookupA, if_pos hk] at h; cases h
    · rw [lookupA, if_neg hk] at h
      rw [removeA_cons_ne hk, ih h]

theorem lookupA_mem {α : Type} {k : Nat} {m : List (Nat × α)} {v : α}
    (h : lookupA k m = some v) : (k, v) ∈ m := by
  induction m with
  | nil => cases h
  | cons p rest ih =>
    rcases p with ⟨k', v'⟩
    by_cases hk : k' = k
    · rw [lookupA, if_pos hk] at h
      cases h
      subst hk
      exact List.mem_cons_self _ _
    · rw [lookupA, if_neg hk] at h
      exact List.mem_cons_of_mem _ (ih h)

theorem lookupA_append_right {α : Type} {k : Nat} {m : List (Nat × α)}
    (h : lookupA k m = none) (m' : List (Nat × α)) :
    lookupA k (m ++ m') = lookupA k m' := by
  induction m with
  | nil => rfl
  | cons p rest ih =>
    rcases p with ⟨k', v⟩
    by_cases hk : k' = k
    · rw [lookupA, if_pos hk] at h; cases h
    · rw [lookupA, if_neg hk] at h
      rw [List.cons_append, lookupA, if_neg hk]
      exact ih h

theorem lookupA_insertAppend_self (k v : Nat) (m : List (Nat × List Nat)) :
    lookupA k (insertAppend k v m) = some ((lookupA k m).getD [] ++ [v]) := by
  induction m with
  | nil => simp [insertAppend, lookupA]
  | cons p rest ih =>
    rcases p with ⟨k', vs⟩
    by_cases hk : k' = k
    · simp [insertAppend, hk, lookupA]
    · simp only [insertAppend, if_neg hk]
      rw [lookupA, if_neg hk, lookupA, if_neg hk]
      exact ih

theorem lookupA_insertAppend_ne {k j : Nat} (h : k ≠ j) (v : Nat)
    (m : List (Nat × List Nat)) :
    lookupA k (insertAppend j v m) = lookupA k m := by
  induction m with
  | nil =>
    have hjk : ¬j = k := fun hh => h hh.symm
    simp [insertAppend, lookupA, hjk]
  | cons p rest ih =>
    rcases p with ⟨k', vs⟩
    by_cases hj : k' = j
    · have hk : ¬k' = k := fun hk => h (hk ▸ hj)
      simp only [insertAppend, if_pos hj]
      rw [lookupA, if_neg hk, lookupA, if_neg hk]
    · simp only [insertAppend, if_neg hj]
      rw [lookupA, lookupA]
      by_cases hk : k' = k
      · rw [if_pos hk, if_pos hk]
      · rw [if_neg hk, if_neg hk]; exact ih


/-! ### `Scope::dispose` (`scope.rs` lines 159 to 219)

The recursion of `dispose` over child scopes is fuelled: `dispose fuel`
performs at most `fuel` levels of nested child disposal, and a fuel of zero
leaves the runtime untouched.  Every theorem below holds for an arbitrary
positive fuel, so the fuel is an artefact of totality only.  Besides the new
runtime state, `dispose` returns the trace of cleanup and removal events in
the order the Rust code performs them. -/

/-- The inner loop of the signal arm of `Scope::dispose`: delete signal `id`
from the source set of subscriber `e`, if `e` still has a source set. -/
def removeSourceFrom (id : Nat) (es : List (Nat × List Nat)) (e : Nat) :
    List (Nat × List Nat) :=
  es.map (fun p => if p.1 = e then (p.1, p.2.filter (fun x => x ≠ id)) else p)

/-- One arm of the `match property` loop in `Scope::dispose`: remove a single
owned property from the runtime slabs.  For a signal, the subscriber set is
also removed and the signal id is deleted from the source set of every
subscriber; for an effect, the effect and its source set are removed; for a
resource, the resource is removed. -/
def disposeProperty (rt : Runtime) : ScopeProperty → Runtime
  | ScopeProperty.signal id =>
    let signals := rt.signals.filter (fun s => s ≠ id)
    let subs := lookupA id rt.signal_subscribers
    let signal_subscribers := removeA id rt.signal_subscribers
    let effect_sources :=
      match subs with
      | some subs => subs.foldl (removeSourceFrom id) rt.effect_sources
      | none => rt.effect_sources
    { rt with signals := signals, signal_subscribers := signal_subscribers,
              effect_sources := effect_sources }
  | ScopeProperty.effect id =>
    { rt with effects := rt.effects.filter (fun e => e ≠ id),
              effect_sources := removeA id rt.effect_sources }
  | ScopeProperty.resource id =>
    { rt with resources := rt.resources.filter (fun r => r ≠ id) }

/-- The `for property in owned` loop of `Scope::dispose`. -/
def disposeProperties (rt : Runtime) (ps : List ScopeProperty) : Runtime :=
  ps.foldl disposeProperty rt

/-- The `for id in children` loop of `Scope::dispose`, parameterised by the
recursive disposal function `d` applied to each child in order. -/
def disposeListF (d : Nat → Runtime → Runtime × List Event) :
    List Nat → Runtime → Runtime × List Event
  | [], rt => (rt, [])
  | c :: rest, rt =>
    let r1 := d c rt
    let r2 := disposeListF d rest r1.1
    (r2.1, r1.2 ++ r2.2)

/-- The `children.remove(self.id)` step of `Scope::dispose`: take the list of
child scopes out of the children map. -/
def takeChildren (s : Nat) (rt : Runtime) : List Nat × Runtime :=
  ((lookupA s rt.scope_children).getD [],
    { rt with scope_children := removeA s rt.scope_children })

/-- The `scope_cleanups.remove(self.id)` step of `Scope::dispose`: take the
registered cleanup callbacks out of the cleanups map. -/
def takeCleanups (s : Nat) (rt : Runtime) : List Nat × Runtime :=
  ((lookupA s rt.scope_cleanups).getD [],
    { rt with scope_cleanups := removeA s rt.scope_cleanups })

/-- The `scopes.remove(self.id)` step of `Scope::dispose`: take the owned
properties out of the scope slab. -/
def takeOwned (s : Nat) (rt : Runtime) : List ScopeProperty × Runtime :=
  ((lookupA s rt.scopes).getD [],
    { rt with scopes := removeA s rt.scopes })

/-- The body of `Scope::dispose`, parameterised by the recursive disposal
function `d` used for child scopes: (1) take and recursively dispose the
children, (2) take and run the cleanups, (3) take the owned properties and
remove them from the slabs. -/
def disposeBody (d : Nat → Runtime → Runtime × List Event) (s : Nat)
    (rt : Runtime) : Runtime × List Event :=
  let c := takeChildren s rt
  let r := disposeListF d c.1 c.2
  let k := takeCleanups s r.1
  let o := takeOwned s k.2
  (disposeProperties o.2 o.1,
    r.2 ++ k.1.map (Event.cleanup s) ++ o.1.map (Event.remove s))

/-- `Scope::dispose`, with explicit recursion fuel. -/
def dispose : Nat → Nat → Runtime → Runtime × List Event
  | 0 => fun _ rt => (rt, [])
  | fuel + 1 => disposeBody (dispose fuel)

/-- Disposal of a list of scopes at a given fuel (the child loop). -/
def disposeList (fuel : Nat) : List Nat → Runtime → Runtime × List Event :=
  disposeListF (dispose fuel)

theorem dispose_succ (fuel s : Nat) (rt : Runtime) :
    dispose (fuel + 1) s rt = disposeBody (dispose fuel) s rt := rfl


/-! ### `Scope::untrack` (`scope.rs` lines 146 to 153)

The tracked computation `f` is a state transformer that returns the final
runtime state together with either a value (normal return) or a panic
message (unwinding).  `untrack` takes the observer (leaving `none`), runs
`f`, and writes the previous observer back only on the normal-return path:
the Rust code has no unwind guard, so a panic skips the restoring `set`. -/
def untrack {T : Type} (f : Runtime → Runtime × Except String T) (rt : Runtime) :
    Runtime × Except String T :=
  let prev := rt.observer
  let r := f { rt with observer := none }
  match r.2 with
  | Except.ok v => ({ r.1 with observer := prev }, Except.ok v)
  | Except.error e => (r.1, Except.error e)

/-! ### `on_cleanup` (`scope.rs` lines 236 to 245)

Cleanup closures are identified by opaque numbers.  The
`cleanups.entry(cx.id).expect(..)` panics when the scope has been disposed;
per the spec this liveness check is membership of the scope in the scope
slab. -/
def on_cleanup (s k : Nat) (rt : Runtime) : Except String Runtime :=
  if (lookupA s rt.scopes).isSome then
    Except.ok { rt with scope_cleanups := insertAppend s k rt.scope_cleanups }
  else
    Except.error "trying to clean up a Scope that has already been disposed"

/-! ### `Scope::run_child_scope` and `Scope::child_scope` (`scope.rs` lines 94 to 119) -/

/-- Modelled from the spec: `RuntimeId::run_scope_undisposed` lives in
`runtime.rs`, which is not part of the sources; per the spec it creates a new
scope (a fresh generation-tagged id, modelled by the monotone counter), runs
the given function in it, and returns the result, the new scope id and a
disposer for it. -/
def run_scope_undisposed {T : Type} (f : Nat → Runtime → T × Runtime)
    (rt : Runtime) : T × Nat × Runtime :=
  let id := rt.next_scope_id
  let rt1 : Runtime :=
    { rt with next_scope_id := rt.next_scope_id + 1, scopes := rt.scopes ++ [(id, [])] }
  let r := f id rt1
  (r.1, id, r.2)

/-- `Scope::run_child_scope`: create and run a child scope, then register the
child id under the parent in `scope_children`.  The
`children.entry(self.id).expect(..)` panics when the parent scope has been
disposed; per the spec this liveness check is membership of the parent in the
scope slab. -/
def run_child_scope {T : Type} (parent : Nat) (f : Nat → Runtime → T × Runtime)
    (rt : Runtime) : Except String ((T × Nat) × Runtime) :=
  let r := run_scope_undisposed f rt
  if (lookupA parent r.2.2.scopes).isSome then
    Except.ok ((r.1, r.2.1),
      { r.2.2 with scope_children := insertAppend parent r.2.1 r.2.2.scope_children })
  else
    Except.error "trying to add a child to a Scope that has already been disposed"

/-- `Scope::child_scope`: `run_child_scope` keeping only the disposer (the
child scope id). -/
def child_scope {T : Type} (parent : Nat) (f : Nat → Runtime → T × Runtime)
    (rt : Runtime) : Except String (Nat × Runtime) :=
  (run_child_scope parent f rt).map (fun x => (x.1.2, x.2))

/-! ### `Scope::pending_fragments` (`scope.rs` lines 496 to 504) -/

/-- `Scope::pending_fragments`: take the whole pending-fragments map out of
the shared context (leaving it empty), or return an empty map when no shared
context exists. -/
def pending_fragments (rt : Runtime) : Runtime × List (String × Nat) :=
  match rt.shared_context with
  | some sc =>
    ({ rt with shared_context := some { sc with pending_fragments := [] } },
      sc.pending_fragments)
  | none => (rt, [])

/-! ### The `Transition` component (`transition.rs`)

The renderable output type `Child` of `leptos_dom` is not part of the
sources; per the spec it is a closed tagged-variant type, of which only the
`Null` constructor is referenced by `transition.rs` (the initial cached
output).  The other constructors stand for arbitrary distinct outputs. -/
inductive Child where
  | null
  | text (s : String)
  | node (id : Nat)
deriving DecidableEq, Repr

/-- The per-instance retained state of `render_transition`: the
`has_rendered_once` cell and the `prev_child` cell. -/
structure TransitionState where
  has_rendered_once : Bool
  prev_child : Child
deriving DecidableEq, Repr

/-- The initial retained state: `Cell::new(false)` and
`RefCell::new(Child::Null)`. -/
def transitionInit : TransitionState :=
  { has_rendered_once := false, prev_child := Child.null }

/-- One evaluation of the closure returned by `render_transition`
(`transition.rs` lines 112 to 134), with the cell state passed explicitly:
given the fallback, the freshly rendered children output for this evaluation
and the readiness of the `SuspenseContext`, return the new cell state, the
value reported through `set_pending`, and the rendered output. -/
def render_transition (fallback fresh : Child) (ready : Bool)
    (st : TransitionState) : TransitionState × Bool × Child :=
  if ready then
    ({ has_rendered_once := true, prev_child := fresh }, false, fresh)
  else if st.has_rendered_once then
    (st, true, st.prev_child)
  else
    ({ st with prev_child := fallback }, true, fallback)

/-- Iterate `render_transition` over a sequence of evaluations, each given by
the readiness observed and the output the children would freshly render;
returns the (pending, output) pair of every evaluation in order. -/
def run_transition (fallback : Child) :
    TransitionState → List (Bool × Child) → List (Bool × Child)
  | _, [] => []
  | st, (ready, fresh) :: rest =>
    let r := render_transition fallback fresh ready st
    (r.2.1, r.2.2) :: run_transition fallback r.1 rest

/-- `Vec::swap_remove(0)` as used by `Transition`: returns the first element,
or panics on an empty vector with the standard library message. -/
def swap_remove0 {α : Type} : List α → Except String α
  | [] => Except.error "swap_remove index (is 0) should be < len (is 0)"
  | x :: _ => Except.ok x

/-- The `Transition` component body (`transition.rs` lines 78 to 92): call
`props.children` and keep `swap_remove(0)` of the produced vector as the
child render function (the `SuspenseContext` creation and `provide_context`
touch runtime state that the selection of the child does not depend on). -/
def Transition {G : Type} (children : Unit → List G) : Except String G :=
  swap_remove0 (children ())

/-! ### `RouteDefinition` (`route.rs`) -/

/-- The `RouteDefinition` struct: a static path, child route definitions and
an element closure, the latter modelled by an opaque identity (the derived
`PartialEq` never inspects it). -/
inductive RouteDefinition where
  | mk (path : String) (children : List RouteDefinition) (element : Nat)

/-- The `path` field. -/
def RouteDefinition.path : RouteDefinition → String
  | RouteDefinition.mk p _ _ => p

/-- The `children` field. -/
def RouteDefinition.children : RouteDefinition → List RouteDefinition
  | RouteDefinition.mk _ cs _ => cs

/-- The `element` field. -/
def RouteDefinition.element : RouteDefinition → Nat
  | RouteDefinition.mk _ _ e => e

mutual
/-- The manual `PartialEq for RouteDefinition`:
`self.path == other.path && self.children == other.children`. -/
def RouteDefinition.eq : RouteDefinition → RouteDefinition → Bool
  | RouteDefinition.mk p1 c1 _, RouteDefinition.mk p2 c2 _ =>
    p1 == p2 && RouteDefinition.eqList c1 c2
/-- `PartialEq for Vec<RouteDefinition>`: pointwise equality. -/
def RouteDefinition.eqList : List RouteDefinition → List RouteDefinition → Bool
  | [], [] => true
  | a :: as, b :: bs => RouteDefinition.eq a b && RouteDefinition.eqList as bs
  | _, _ => false
end

/-- A route definition with the element closures erased: the data that
`RouteDefinition` equality can possibly observe. -/
inductive RouteTree where
  | mk (path : String) (children : List RouteTree)

mutual
/-- Erase the element closures of a route definition. -/
def stripElements : RouteDefinition → RouteTree
  | RouteDefinition.mk p cs _ => RouteTree.mk p (stripElementsList cs)
/-- Erase the element closures of a list of route definitions. -/
def stripElementsList : List RouteDefinition → List RouteTree
  | [] => []
  | a :: as => stripElements a :: stripElementsList as
end


/-! ### Helper lemmas for `RouteDefinition` equality -/

mutual
theorem routeEq_iff_strip (a b : RouteDefinition) :
    RouteDefinition.eq a b = true ↔ stripElements a = stripElements b := by
  cases a with
  | mk p1 c1 e1 =>
    cases b with
    | mk p2 c2 e2 =>
      rw [RouteDefinition.eq, stripElements, stripElements]
      rw [Bool.and_eq_true, beq_iff_eq, RouteTree.mk.injEq]
      exact and_congr Iff.rfl (routeEqList_iff_strip c1 c2)
theorem routeEqList_iff_strip (as bs : List RouteDefinition) :
    RouteDefinition.eqList as bs = true ↔
      stripElementsList as = stripElementsList bs := by
  cases as with
  | nil =>
    cases bs with
    | nil => simp [RouteDefinition.eqList, stripElementsList]
    | cons b bs => simp [RouteDefinition.eqList, stripElementsList]
  | cons a as =>
    cases bs with
    | nil => simp [RouteDefinition.eqList, stripElementsList]
    | cons b bs =>
      rw [RouteDefinition.eqList, stripElementsList, stripElementsList]
      rw [Bool.and_eq_true, List.cons_eq_cons]
      exact and_congr (routeEq_iff_strip a b) (routeEqList_iff_strip as bs)
end

/-- C10: `RouteDefinition` equality ignores the `element` field — two route
definitions compare equal exactly when their paths agree and their children
agree recursively after erasing every element closure, whatever the element
closures are. -/
theorem c10_routeEq_ignores_element (a b : RouteDefinition) :
    RouteDefinition.eq a b = true ↔
      (a.path = b.path ∧
        stripElementsList a.children = stripElementsList b.children) := by
  cases a with
  | mk p1 c1 e1 =>
    cases b with
    | mk p2 c2 e2 =>
      rw [routeEq_iff_strip, stripElements, stripElements, RouteTree.mk.injEq]
      rfl

/-- Witness for C10 at concrete route definitions with distinct element
closures: the comparison is still true. -/
theorem c10_witness :
    (RouteDefinition.mk "a" [RouteDefinition.mk "b" [] 5] 1).path =
        (RouteDefinition.mk "a" [RouteDefinition.mk "b" [] 6] 2).path ∧
      stripElementsList (RouteDefinition.mk "a" [RouteDefinition.mk "b" [] 5] 1).children =
        stripElementsList (RouteDefinition.mk "a" [RouteDefinition.mk "b" [] 6] 2).children :=
  (c10_routeEq_ignores_element (RouteDefinition.mk "a" [RouteDefinition.mk "b" [] 5] 1)
    (RouteDefinition.mk "a" [RouteDefinition.mk "b" [] 6] 2)).mp (by
      rw [RouteDefinition.eq, RouteDefinition.eqList, RouteDefinition.eq,
        RouteDefinition.eqList]
      rfl)

/-! ### C2: `untrack` and the observer cell -/

/-- A computation that panics at once, leaving the runtime as it found it. -/
def failF : Runtime → Runtime × Except String Unit :=
  fun rt => (rt, Except.error "boom")

/-- A computation that returns 42 normally, leaving the runtime as it found it. -/
def okF : Runtime → Runtime × Except String Nat :=
  fun rt => (rt, Except.ok 42)

/-- A runtime whose current observer is effect 0. -/
def rtObs : Runtime := { observer := some 0 }

/-- C2 counterexample: with prior observer `some 0` and a computation that
panics, `untrack` does NOT leave the observer equal to the prior observer —
the cleared observer is never restored, because the restoring `set` only runs
on the normal-return path. -/
theorem c2_counterexample :
    (untrack failF rtObs).1.observer = none ∧
      rtObs.observer = some 0 ∧
      (untrack failF rtObs).1.observer ≠ rtObs.observer := by
  decide

/-- C2 as amended: when `f` returns normally, `untrack` returns the result of
running `f` with the observer cleared and restores the observer that was
current at entry (hence arbitrarily nested untrack regions compose, each
restoring the observer current when it started); when `f` panics, the panic
propagates and the observer is NOT restored (it is left as `f` left it). -/
theorem c2_untrack_restores_on_normal_return (T : Type)
    (f : Runtime → Runtime × Except String T) (rt rt2 : Runtime) :
    (∀ v : T, f { rt with observer := none } = (rt2, Except.ok v) →
      untrack f rt = ({ rt2 with observer := rt.observer }, Except.ok v)) ∧
    (∀ m : String, f { rt with observer := none } = (rt2, Except.error m) →
      untrack f rt = (rt2, Except.error m)) := by
  constructor
  · intro v h
    simp [untrack, h]
  · intro m h
    simp [untrack, h]

/-- Witness for (amended) C2 at a concrete normal-return computation. -/
theorem c2_witness :
    untrack okF rtObs = ({ rtObs with observer := some 0 }, Except.ok 42) :=
  (c2_untrack_restores_on_normal_return Nat okF rtObs
    { rtObs with observer := none }).1 42 rfl

/-! ### C4: the `render_transition` state machine -/

/-- C4: one evaluation of the render function of Transition is the three-branch
state machine of the claim — ready marks has-rendered-once, caches and
returns the fresh output reporting pending=false; not-ready after a first
render reports pending=true and returns the cached previous output; not-ready
before any render reports pending=true, caches and returns the fallback.
Over the readiness sequence not-ready, ready, not-ready, ready the third
evaluation returns the output of the second evaluation. -/
theorem c4_render_transition_machine (fallback fresh : Child)
    (st : TransitionState) :
    (render_transition fallback fresh true st =
      ({ has_rendered_once := true, prev_child := fresh }, false, fresh)) ∧
    (st.has_rendered_once = true →
      render_transition fallback fresh false st = (st, true, st.prev_child)) ∧
    (st.has_rendered_once = false →
      render_transition fallback fresh false st =
        ({ st with prev_child := fallback }, true, fallback)) ∧
    (∀ f1 f2 f3 f4 : Child,
      run_transition fallback transitionInit
          [(false, f1), (true, f2), (false, f3), (true, f4)] =
        [(true, fallback), (false, f2), (true, f2), (false, f4)]) := by
  refine ⟨rfl, ?_, ?_, ?_⟩
  · intro h
    simp [render_transition, h]
  · intro h
    simp [render_transition, h]
  · intro f1 f2 f3 f4
    rfl

/-- Witness for C4 at concrete outputs: the cached-output branch at a state
that has rendered once. -/
theorem c4_witness :
    render_transition Child.null (Child.node 1) false
        { has_rendered_once := true, prev_child := Child.node 0 } =
      ({ has_rendered_once := true, prev_child := Child.node 0 }, true,
        Child.node 0) :=
  (c4_render_transition_machine Child.null (Child.node 1)
    { has_rendered_once := true, prev_child := Child.node 0 }).2.1 rfl

/-! ### C6: `pending_fragments` drains exactly once -/

/-- C6: `pending_fragments` transfers out every pending (key, future) entry,
leaving the shared-context map empty — so an immediately following call
returns an empty mapping — and when no shared context exists it returns an
empty mapping and leaves the runtime unchanged. -/
theorem c6_pending_fragments_drains_once (rt : Runtime) :
    ((pending_fragments ((pending_fragments rt).1)).2 = []) ∧
    (∀ sc, rt.shared_context = some sc →
      (pending_fragments rt).2 = sc.pending_fragments ∧
        ((pending_fragments rt).1).shared_context =
          some { sc with pending_fragments := [] }) ∧
    (rt.shared_context = none →
      (pending_fragments rt).2 = [] ∧ (pending_fragments rt).1 = rt) := by
  rcases rt with ⟨ns, sco, sch, scl, sig, ss, eff, es, res, obs, shc⟩
  cases shc with
  | none =>
    refine ⟨rfl, ?_, fun _ => ⟨rfl, rfl⟩⟩
    intro sc hsc
    cases hsc
  | some sc =>
    refine ⟨rfl, ?_, ?_⟩
    · intro sc' hsc
      cases hsc
      exact ⟨rfl, rfl⟩
    · intro hn
      cases hn

/-- A runtime with a shared context holding one pending fragment. -/
def rtSC : Runtime :=
  { shared_context := some { pending_fragments := [("0f", 5)] } }

/-- Witness for C6 at a concrete runtime with one pending fragment. -/
theorem c6_witness :
    (pending_fragments rtSC).2 = [("0f", 5)] ∧
      ((pending_fragments rtSC).1).shared_context =
        some { pending_fragments := [] } :=
  (c6_pending_fragments_drains_once rtSC).2.1 { pending_fragments := [("0f", 5)] } rfl

/-! ### C7: adding a child to a disposed parent panics -/

/-- C7: if the parent scope has already been disposed (its id was removed
from the scope slab, and is older than every id the runtime will allocate),
then `run_child_scope` and `child_scope` fail with the panic message naming
the disposed-parent condition, for any child body that does not itself
re-create the slab entry of the parent. -/
theorem c7_child_scope_disposed_parent_panics (T : Type) (p : Nat)
    (rt : Runtime) (f : Nat → Runtime → T × Runtime)
    (hdisposed : lookupA p rt.scopes = none)
    (hp : p < rt.next_scope_id)
    (hf : ∀ id rt', lookupA p rt'.scopes = none →
      lookupA p ((f id rt').2).scopes = none) :
    run_child_scope p f rt =
      Except.error "trying to add a child to a Scope that has already been disposed" ∧
    child_scope p f rt =
      Except.error "trying to add a child to a Scope that has already been disposed" := by
  have hne : ¬rt.next_scope_id = p := fun h => absurd (h ▸ hp) (lt_irrefl p)
  have h1 : lookupA p
      (rt.scopes ++ [(rt.next_scope_id, ([] : List ScopeProperty))]) = none := by
    rw [lookupA_append_right hdisposed, lookupA, if_neg hne]
    rfl
  have h2 : lookupA p ((run_scope_undisposed f rt).2.2).scopes = none :=
    hf rt.next_scope_id _ h1
  constructor
  · simp [run_child_scope, h2]
  · simp [child_scope, run_child_scope, h2, Except.map]

/-- A trivial child body returning 0 and leaving the runtime unchanged. -/
def idChildF : Nat → Runtime → Nat × Runtime := fun _ rt => (0, rt)

/-- A runtime in which scope 0 has been disposed (allocated, then removed
from the scope slab). -/
def rtDisposed : Runtime := { next_scope_id := 1 }

/-- Witness for C7 at the concrete disposed parent 0. -/
theorem c7_witness :
    run_child_scope 0 idChildF rtDisposed =
      Except.error "trying to add a child to a Scope that has already been disposed" :=
  (c7_child_scope_disposed_parent_panics Nat 0 rtDisposed idChildF rfl
    (by decide) (fun _ _ h => h)).1

/-! ### C9: `Transition` and the children vector -/

/-- C9: `Transition` selects exactly the first element of the vector produced
by `props.children` as its child, and on an empty vector it panics with the
`swap_remove` message instead of producing a fallback or error value. -/
theorem c9_transition_uses_first_child (G : Type) (children : Unit → List G) :
    (children () = [] →
      Transition children =
        Except.error "swap_remove index (is 0) should be < len (is 0)") ∧
    (∀ g gs, children () = g :: gs → Transition children = Except.ok g) := by
  constructor
  · intro h
    rw [Transition, h]
    rfl
  · intro g gs h
    rw [Transition, h]
    rfl

/-- A children function producing an empty vector. -/
def emptyChildren : Unit → List Nat := fun _ => []

/-- Witness for C9 at the concrete empty children vector. -/
theorem c9_witness :
    Transition emptyChildren =
      Except.error "swap_remove index (is 0) should be < len (is 0)" :=
  (c9_transition_uses_first_child Nat emptyChildren).1 rfl


/-! ### Structural lemmas about disposal -/

/-- Convenient projection form of `disposeBody`: its final runtime. -/
theorem disposeBody_fst (d : Nat → Runtime → Runtime × List Event) (s : Nat)
    (rt : Runtime) :
    (disposeBody d s rt).1 =
      disposeProperties
        (takeOwned s (takeCleanups s
          (disposeListF d (takeChildren s rt).1 (takeChildren s rt).2).1).2).2
        (takeOwned s (takeCleanups s
          (disposeListF d (takeChildren s rt).1 (takeChildren s rt).2).1).2).1 := rfl

/-- Convenient projection form of `disposeBody`: its event trace. -/
theorem disposeBody_snd (d : Nat → Runtime → Runtime × List Event) (s : Nat)
    (rt : Runtime) :
    (disposeBody d s rt).2 =
      (disposeListF d (takeChildren s rt).1 (takeChildren s rt).2).2
        ++ ((takeCleanups s
              (disposeListF d (takeChildren s rt).1 (takeChildren s rt).2).1).1).map
            (Event.cleanup s)
        ++ ((takeOwned s (takeCleanups s
              (disposeListF d (takeChildren s rt).1 (takeChildren s rt).2).1).2).1).map
            (Event.remove s) := rfl

theorem disposeProperty_scopes (rt : Runtime) (p : ScopeProperty) :
    (disposeProperty rt p).scopes = rt.scopes := by
  cases p <;> rfl

theorem disposeProperty_children (rt : Runtime) (p : ScopeProperty) :
    (disposeProperty rt p).scope_children = rt.scope_children := by
  cases p <;> rfl

theorem disposeProperty_cleanups (rt : Runtime) (p : ScopeProperty) :
    (disposeProperty rt p).scope_cleanups = rt.scope_cleanups := by
  cases p <;> rfl

theorem disposeProperties_scopes (ps : List ScopeProperty) : ∀ rt : Runtime,
    (disposeProperties rt ps).scopes = rt.scopes := by
  induction ps with
  | nil => intro rt; rfl
  | cons p ps ih =>
    intro rt
    show (disposeProperties (disposeProperty rt p) ps).scopes = rt.scopes
    rw [ih, disposeProperty_scopes]

theorem disposeProperties_children (ps : List ScopeProperty) : ∀ rt : Runtime,
    (disposeProperties rt ps).scope_children = rt.scope_children := by
  induction ps with
  | nil => intro rt; rfl
  | cons p ps ih =>
    intro rt
    show (disposeProperties (disposeProperty rt p) ps).scope_children = rt.scope_children
    rw [ih, disposeProperty_children]

theorem disposeProperties_cleanups (ps : List ScopeProperty) : ∀ rt : Runtime,
    (disposeProperties rt ps).scope_cleanups = rt.scope_cleanups := by
  induction ps with
  | nil => intro rt; rfl
  | cons p ps ih =>
    intro rt
    show (disposeProperties (disposeProperty rt p) ps).scope_cleanups = rt.scope_cleanups
    rw [ih, disposeProperty_cleanups]

/-- Entry-level description of one `removeSourceFrom` step. -/
theorem mem_removeSourceFrom {id x : Nat} {m : List (Nat × List Nat)}
    {p : Nat × List Nat} (hp : p ∈ removeSourceFrom id m x) :
    ∃ srcs, (p.1, srcs) ∈ m ∧
      ((p.1 = x ∧ p.2 = srcs.filter (fun y => y ≠ id)) ∨ (p.1 ≠ x ∧ p.2 = srcs)) := by
  rcases List.mem_map.mp hp with ⟨q, hq, hfq⟩
  by_cases hqx : q.1 = x
  · rw [if_pos hqx] at hfq
    refine ⟨q.2, ?_, Or.inl ⟨?_, ?_⟩⟩
    · have h1 : p.1 = q.1 := by rw [← hfq]
      rw [h1]
      exact hq
    · rw [← hfq]
      exact hqx
    · rw [← hfq]
  · rw [if_neg hqx] at hfq
    refine ⟨q.2, ?_, Or.inr ⟨?_, ?_⟩⟩
    · have h1 : p.1 = q.1 := by rw [← hfq]
      rw [h1]
      exact hq
    · rw [← hfq]
      exact hqx
    · rw [← hfq]

/-- Entry-level description of the whole subscriber loop of the signal arm:
every surviving source-set entry descends from an entry of the original map
with the same key, its set shrank, and if its key was one of the subscribers
then the disposed signal id is gone from its set. -/
theorem mem_foldl_removeSourceFrom {id : Nat} : ∀ (subs : List Nat)
    (m : List (Nat × List Nat)) (p : Nat × List Nat),
    p ∈ subs.foldl (removeSourceFrom id) m →
    ∃ srcs, (p.1, srcs) ∈ m ∧ (∀ x ∈ p.2, x ∈ srcs) ∧ (p.1 ∈ subs → id ∉ p.2) := by
  intro subs
  induction subs with
  | nil =>
    intro m p hp
    exact ⟨p.2, hp, fun x hx => hx, fun h => absurd h (List.not_mem_nil _)⟩
  | cons x xs ih =>
    intro m p hp
    rcases ih (removeSourceFrom id m x) p hp with ⟨srcs', h1, hsub, hcond⟩
    rcases mem_removeSourceFrom h1 with ⟨srcs, hm, hcase⟩
    have hm' : (p.1, srcs) ∈ m := hm
    rcases hcase with ⟨hkey, hval⟩ | ⟨hkey, hval⟩
    · have hval' : srcs' = srcs.filter (fun y => y ≠ id) := hval
      refine ⟨srcs, hm', ?_, ?_⟩
      · intro y hy
        have hy' : y ∈ srcs' := hsub y hy
        rw [hval'] at hy'
        exact (List.mem_filter.mp hy').1
      · intro _ hid
        have hid' : id ∈ srcs' := hsub id hid
        rw [hval'] at hid'
        have := (List.mem_filter.mp hid').2
        simp at this
    · have hkey' : p.1 ≠ x := hkey
      have hval' : srcs' = srcs := hval
      refine ⟨srcs, hm', ?_, ?_⟩
      · intro y hy
        have hy' : y ∈ srcs' := hsub y hy
        rw [hval'] at hy'
        exact hy'
      · intro hmem hid
        rcases List.mem_cons.mp hmem with h | h
        · exact hkey' h
        · exact hcond h hid

/-- The shrinking relation between runtime states: disposal only removes
scope-slab, children-map and cleanup-map entries, only shrinks effect source
sets, and only removes effects. -/
def Shrinks (a b : Runtime) : Prop :=
  (∀ k v, lookupA k b.scopes = some v → lookupA k a.scopes = some v) ∧
  (∀ k v, lookupA k b.scope_children = some v → lookupA k a.scope_children = some v) ∧
  (∀ k v, lookupA k b.scope_cleanups = some v → lookupA k a.scope_cleanups = some v) ∧
  (∀ p, p ∈ b.effect_sources →
    ∃ q, q ∈ a.effect_sources ∧ q.1 = p.1 ∧ ∀ x ∈ p.2, x ∈ q.2) ∧
  (∀ e, e ∈ b.effects → e ∈ a.effects)

theorem shrinks_refl (rt : Runtime) : Shrinks rt rt :=
  ⟨fun _ _ h => h, fun _ _ h => h, fun _ _ h => h,
    fun p hp => ⟨p, hp, rfl, fun _ hx => hx⟩, fun _ h => h⟩

theorem shrinks_trans {a b c : Runtime} (h1 : Shrinks a b) (h2 : Shrinks b c) :
    Shrinks a c := by
  obtain ⟨s1, c1, k1, e1, f1⟩ := h1
  obtain ⟨s2, c2, k2, e2, f2⟩ := h2
  refine ⟨fun k v h => s1 k v (s2 k v h), fun k v h => c1 k v (c2 k v h),
    fun k v h => k1 k v (k2 k v h), ?_, fun e h => f1 e (f2 e h)⟩
  intro p hp
  rcases e2 p hp with ⟨q, hq, hkey, hsub⟩
  rcases e1 q hq with ⟨q', hq', hkey', hsub'⟩
  exact ⟨q', hq', hkey'.trans hkey, fun x hx => hsub' x (hsub x hx)⟩

theorem shrinks_disposeProperty (rt : Runtime) (p : ScopeProperty) :
    Shrinks rt (disposeProperty rt p) := by
  cases p with
  | signal id =>
    refine ⟨fun _ _ h => h, fun _ _ h => h, fun _ _ h => h, ?_, fun _ h => h⟩
    intro q hq
    show ∃ r, r ∈ rt.effect_sources ∧ r.1 = q.1 ∧ ∀ x ∈ q.2, x ∈ r.2
    rcases hs : lookupA id rt.signal_subscribers with _ | subs
    · simp only [disposeProperty, hs] at hq
      exact ⟨q, hq, rfl, fun _ hx => hx⟩
    · simp only [disposeProperty, hs] at hq
      rcases mem_foldl_removeSourceFrom subs rt.effect_sources q hq with
        ⟨srcs, hm, hsub, _⟩
      exact ⟨(q.1, srcs), hm, rfl, hsub⟩
  | effect id =>
    refine ⟨fun _ _ h => h, fun _ _ h => h, fun _ _ h => h, ?_, ?_⟩
    · intro q hq
      show ∃ r, r ∈ rt.effect_sources ∧ r.1 = q.1 ∧ ∀ x ∈ q.2, x ∈ r.2
      have hq' : q ∈ rt.effect_sources := by
        have := List.mem_filter.mp hq
        exact this.1
      exact ⟨q, hq', rfl, fun _ hx => hx⟩
    · intro e he
      have := List.mem_filter.mp he
      exact this.1
  | resource id =>
    exact ⟨fun _ _ h => h, fun _ _ h => h, fun _ _ h => h,
      fun q hq => ⟨q, hq, rfl, fun _ hx => hx⟩, fun _ h => h⟩

theorem shrinks_disposeProperties (ps : List ScopeProperty) : ∀ rt : Runtime,
    Shrinks rt (disposeProperties rt ps) := by
  induction ps with
  | nil => intro rt; exact shrinks_refl rt
  | cons p ps ih =>
    intro rt
    exact shrinks_trans (shrinks_disposeProperty rt p) (ih (disposeProperty rt p))

theorem shrinks_takeChildren (s : Nat) (rt : Runtime) :
    Shrinks rt (takeChildren s rt).2 :=
  ⟨fun _ _ h => h, fun _ _ h => lookupA_removeA_some h, fun _ _ h => h,
    fun p hp => ⟨p, hp, rfl, fun _ hx => hx⟩, fun _ h => h⟩

theorem shrinks_takeCleanups (s : Nat) (rt : Runtime) :
    Shrinks rt (takeCleanups s rt).2 :=
  ⟨fun _ _ h => h, fun _ _ h => h, fun _ _ h => lookupA_removeA_some h,
    fun p hp => ⟨p, hp, rfl, fun _ hx => hx⟩, fun _ h => h⟩

theorem shrinks_takeOwned (s : Nat) (rt : Runtime) :
    Shrinks rt (takeOwned s rt).2 :=
  ⟨fun _ _ h => lookupA_removeA_some h, fun _ _ h => h, fun _ _ h => h,
    fun p hp => ⟨p, hp, rfl, fun _ hx => hx⟩, fun _ h => h⟩

theorem shrinks_disposeListF (d : Nat → Runtime → Runtime × List Event)
    (hd : ∀ s rt, Shrinks rt ((d s rt).1)) : ∀ (cs : List Nat) (rt : Runtime),
    Shrinks rt ((disposeListF d cs rt).1) := by
  intro cs
  induction cs with
  | nil => intro rt; exact shrinks_refl rt
  | cons c rest ih =>
    intro rt
    exact shrinks_trans (hd c rt) (ih ((d c rt).1))

theorem shrinks_disposeBody (d : Nat → Runtime → Runtime × List Event)
    (hd : ∀ s rt, Shrinks rt ((d s rt).1)) (s : Nat) (rt : Runtime) :
    Shrinks rt ((disposeBody d s rt).1) := by
  rw [disposeBody_fst]
  refine shrinks_trans (shrinks_takeChildren s rt) ?_
  refine shrinks_trans (shrinks_disposeListF d hd (takeChildren s rt).1 _) ?_
  refine shrinks_trans (shrinks_takeCleanups s _) ?_
  refine shrinks_trans (shrinks_takeOwned s _) ?_
  exact shrinks_disposeProperties _ _

theorem shrinks_dispose : ∀ (fuel s : Nat) (rt : Runtime),
    Shrinks rt ((dispose fuel s rt).1) := by
  intro fuel
  induction fuel with
  | zero => intro s rt; exact shrinks_refl rt
  | succ fuel ih =>
    intro s rt
    rw [dispose_succ]
    exact shrinks_disposeBody (dispose fuel) (fun s' rt' => ih s' rt') s rt


/-! ### The bidirectional-edge invariant and severed-edge predicates -/

/-- The documented bidirectional-subscription invariant of the dependency
graph: every signal id in the source set of an effect lists that effect among its
subscribers. -/
def Mirror (rt : Runtime) : Prop :=
  ∀ p ∈ rt.effect_sources, ∀ sid ∈ p.2,
    p.1 ∈ (lookupA sid rt.signal_subscribers).getD []

/-- No source set of any remaining effect mentions signal `sid`. -/
def NoSrc (sid : Nat) (rt : Runtime) : Prop :=
  ∀ p ∈ rt.effect_sources, sid ∉ p.2

/-- Effect `eid` is gone from the effect slab and from the source map. -/
def NoEff (eid : Nat) (rt : Runtime) : Prop :=
  eid ∉ rt.effects ∧ ∀ p ∈ rt.effect_sources, p.1 ≠ eid

theorem noSrc_of_shrinks {sid : Nat} {a b : Runtime} (hq : NoSrc sid a)
    (h : Shrinks a b) : NoSrc sid b := by
  intro p hp hmem
  rcases h.2.2.2.1 p hp with ⟨q, hqmem, _, hsub⟩
  exact hq q hqmem (hsub sid hmem)

theorem noEff_of_shrinks {eid : Nat} {a b : Runtime} (hq : NoEff eid a)
    (h : Shrinks a b) : NoEff eid b := by
  constructor
  · intro hmem
    exact hq.1 (h.2.2.2.2 eid hmem)
  · intro p hp
    rcases h.2.2.2.1 p hp with ⟨q, hqmem, hkey, _⟩
    rw [← hkey]
    exact hq.2 q hqmem

theorem mirror_disposeProperty {rt : Runtime} (hM : Mirror rt)
    (p : ScopeProperty) : Mirror (disposeProperty rt p) := by
  cases p with
  | signal id =>
    intro q hq sid' hsid'
    show q.1 ∈ (lookupA sid' (removeA id rt.signal_subscribers)).getD []
    rcases hs : lookupA id rt.signal_subscribers with _ | subs
    · simp only [disposeProperty, hs] at hq
      have hmem := hM q hq sid' hsid'
      by_cases hid : sid' = id
      · subst hid
        rw [hs] at hmem
        exact absurd hmem (List.not_mem_nil _)
      · rw [lookupA_removeA_ne hid]
        exact hmem
    · simp only [disposeProperty, hs] at hq
      rcases mem_foldl_removeSourceFrom subs rt.effect_sources q hq with
        ⟨srcs, hm, hsub, hcond⟩
      by_cases hid : sid' = id
      · subst hid
        by_cases hin : q.1 ∈ subs
        · exact absurd hsid' (hcond hin)
        · have hmem := hM (q.1, srcs) hm sid' (hsub sid' hsid')
          rw [hs] at hmem
          exact absurd hmem hin
      · have hmem := hM (q.1, srcs) hm sid' (hsub sid' hsid')
        rw [lookupA_removeA_ne hid]
        exact hmem
  | effect id =>
    intro q hq sid' hsid'
    have hq2 : q ∈ rt.effect_sources.filter (fun p => p.1 ≠ id) := hq
    exact hM q (List.mem_filter.mp hq2).1 sid' hsid'
  | resource id =>
    intro q hq sid' hsid'
    exact hM q hq sid' hsid'

theorem mirror_disposeProperties : ∀ (ps : List ScopeProperty) (rt : Runtime),
    Mirror rt → Mirror (disposeProperties rt ps) := by
  intro ps
  induction ps with
  | nil => intro rt h; exact h
  | cons p ps ih =>
    intro rt h
    show Mirror (disposeProperties (disposeProperty rt p) ps)
    exact ih (disposeProperty rt p) (mirror_disposeProperty h p)

theorem mirror_disposeListF (d : Nat → Runtime → Runtime × List Event)
    (hd : ∀ s rt, Mirror rt → Mirror ((d s rt).1)) :
    ∀ (cs : List Nat) (rt : Runtime), Mirror rt → Mirror ((disposeListF d cs rt).1) := by
  intro cs
  induction cs with
  | nil => intro rt h; exact h
  | cons c rest ih =>
    intro rt h
    exact ih ((d c rt).1) (hd c rt h)

theorem mirror_disposeBody (d : Nat → Runtime → Runtime × List Event)
    (hd : ∀ s rt, Mirror rt → Mirror ((d s rt).1)) (s : Nat) (rt : Runtime)
    (hM : Mirror rt) : Mirror ((disposeBody d s rt).1) := by
  rw [disposeBody_fst]
  apply mirror_disposeProperties
  have hM1 : Mirror (takeChildren s rt).2 := hM
  have hM2 := mirror_disposeListF d hd (takeChildren s rt).1 (takeChildren s rt).2 hM1
  exact hM2

theorem mirror_dispose : ∀ (fuel s : Nat) (rt : Runtime),
    Mirror rt → Mirror ((dispose fuel s rt).1) := by
  intro fuel
  induction fuel with
  | zero => intro s rt h; exact h
  | succ fuel ih =>
    intro s rt h
    rw [dispose_succ]
    exact mirror_disposeBody (dispose fuel) (fun s' rt' => ih s' rt') s rt h

/-- Processing owned signal `sid` severs every remaining source-set edge to
it, provided the bidirectional invariant held. -/
theorem noSrc_establish {rt : Runtime} (hM : Mirror rt) (sid : Nat) :
    NoSrc sid (disposeProperty rt (ScopeProperty.signal sid)) := by
  intro q hq hmem
  rcases hs : lookupA sid rt.signal_subscribers with _ | subs
  · simp only [disposeProperty, hs] at hq
    have := hM q hq sid hmem
    rw [hs] at this
    exact absurd this (List.not_mem_nil _)
  · simp only [disposeProperty, hs] at hq
    rcases mem_foldl_removeSourceFrom subs rt.effect_sources q hq with
      ⟨srcs, hm, hsub, hcond⟩
    by_cases hin : q.1 ∈ subs
    · exact hcond hin hmem
    · have := hM (q.1, srcs) hm sid (hsub sid hmem)
      rw [hs] at this
      exact hin this

/-- Processing owned effect `eid` removes it from the effect slab and from
the source map. -/
theorem noEff_establish (rt : Runtime) (eid : Nat) :
    NoEff eid (disposeProperty rt (ScopeProperty.effect eid)) := by
  constructor
  · intro hmem
    have hmem2 : eid ∈ rt.effects.filter (fun e => e ≠ eid) := hmem
    have := (List.mem_filter.mp hmem2).2
    simp at this
  · intro q hq
    have hq2 : q ∈ rt.effect_sources.filter (fun p => p.1 ≠ eid) := hq
    have := (List.mem_filter.mp hq2).2
    simpa using this

/-! ### A generic invariant-establishment scheme over disposal

`Q` is a predicate over runtimes that is (1) preserved by removing any
property, (2) insensitive to the fields other than `effects` and
`effect_sources`, and (3) established by removing the target property `tp`
under the bidirectional invariant.  Disposal of any scope whose slab entry
contains `tp` establishes `Q`. -/

theorem q_disposeProperties_pres (Q : Runtime → Prop)
    (hq1 : ∀ rt p, Q rt → Q (disposeProperty rt p)) :
    ∀ (ps : List ScopeProperty) (rt : Runtime), Q rt → Q (disposeProperties rt ps) := by
  intro ps
  induction ps with
  | nil => intro rt h; exact h
  | cons p ps ih =>
    intro rt h
    show Q (disposeProperties (disposeProperty rt p) ps)
    exact ih (disposeProperty rt p) (hq1 rt p h)

theorem q_disposeListF_pres (Q : Runtime → Prop)
    (d : Nat → Runtime → Runtime × List Event)
    (hd : ∀ s rt, Q rt → Q ((d s rt).1)) :
    ∀ (cs : List Nat) (rt : Runtime), Q rt → Q ((disposeListF d cs rt).1) := by
  intro cs
  induction cs with
  | nil => intro rt h; exact h
  | cons c rest ih =>
    intro rt h
    exact ih ((d c rt).1) (hd c rt h)

theorem q_disposeBody_pres (Q : Runtime → Prop)
    (hq1 : ∀ rt p, Q rt → Q (disposeProperty rt p))
    (hq2 : ∀ a b : Runtime, b.effects = a.effects →
      b.effect_sources = a.effect_sources → Q a → Q b)
    (d : Nat → Runtime → Runtime × List Event)
    (hd : ∀ s rt, Q rt → Q ((d s rt).1)) (s : Nat) (rt : Runtime) (h : Q rt) :
    Q ((disposeBody d s rt).1) := by
  rw [disposeBody_fst]
  apply q_disposeProperties_pres Q hq1
  refine hq2 (takeCleanups s
    (disposeListF d (takeChildren s rt).1 (takeChildren s rt).2).1).2 _ rfl rfl ?_
  refine hq2 (disposeListF d (takeChildren s rt).1 (takeChildren s rt).2).1 _
    rfl rfl ?_
  apply q_disposeListF_pres Q d hd
  exact hq2 rt _ rfl rfl h

theorem q_dispose_pres (Q : Runtime → Prop)
    (hq1 : ∀ rt p, Q rt → Q (disposeProperty rt p))
    (hq2 : ∀ a b : Runtime, b.effects = a.effects →
      b.effect_sources = a.effect_sources → Q a → Q b) :
    ∀ (fuel s : Nat) (rt : Runtime), Q rt → Q ((dispose fuel s rt).1) := by
  intro fuel
  induction fuel with
  | zero => intro s rt h; exact h
  | succ fuel ih =>
    intro s rt h
    rw [dispose_succ]
    exact q_disposeBody_pres Q hq1 hq2 (dispose fuel) (fun s' rt' => ih s' rt') s rt h

theorem q_disposeProperties_master (Q : Runtime → Prop) (tp : ScopeProperty)
    (hq1 : ∀ rt p, Q rt → Q (disposeProperty rt p))
    (hq3 : ∀ rt, Mirror rt → Q (disposeProperty rt tp)) :
    ∀ (ps : List ScopeProperty) (rt : Runtime), Mirror rt → tp ∈ ps →
      Q (disposeProperties rt ps) := by
  intro ps
  induction ps with
  | nil => intro rt _ h; exact absurd h (List.not_mem_nil _)
  | cons p ps ih =>
    intro rt hM hmem
    show Q (disposeProperties (disposeProperty rt p) ps)
    by_cases hp : tp = p
    · subst hp
      exact q_disposeProperties_pres Q hq1 ps _ (hq3 rt hM)
    · rcases List.mem_cons.mp hmem with h | h
      · exact absurd h hp
      · exact ih (disposeProperty rt p) (mirror_disposeProperty hM p) h

theorem q_disposeListF_master (Q : Runtime → Prop) (tp : ScopeProperty)
    (d : Nat → Runtime → Runtime × List Event)
    (hdp : ∀ s rt, Q rt → Q ((d s rt).1))
    (hdm : ∀ s rt, Mirror rt → Mirror ((d s rt).1))
    (hdmaster : ∀ s rt t props, Mirror rt → lookupA t rt.scopes = some props →
      tp ∈ props → Q ((d s rt).1) ∨ lookupA t ((d s rt).1).scopes = some props) :
    ∀ (cs : List Nat) (rt : Runtime) (t : Nat) (props : List ScopeProperty),
      Mirror rt → lookupA t rt.scopes = some props → tp ∈ props →
      Q ((disposeListF d cs rt).1) ∨
        lookupA t ((disposeListF d cs rt).1).scopes = some props := by
  intro cs
  induction cs with
  | nil => intro rt t props _ hl _; exact Or.inr hl
  | cons c rest ih =>
    intro rt t props hM hl hmem
    show Q ((disposeListF d rest ((d c rt).1)).1) ∨
      lookupA t ((disposeListF d rest ((d c rt).1)).1).scopes = some props
    rcases hdmaster c rt t props hM hl hmem with hQ | hl2
    · exact Or.inl (q_disposeListF_pres Q d hdp rest ((d c rt).1) hQ)
    · exact ih ((d c rt).1) t props (hdm c rt hM) hl2 hmem

theorem q_disposeBody_master (Q : Runtime → Prop) (tp : ScopeProperty)
    (hq1 : ∀ rt p, Q rt → Q (disposeProperty rt p))
    (hq2 : ∀ a b : Runtime, b.effects = a.effects →
      b.effect_sources = a.effect_sources → Q a → Q b)
    (hq3 : ∀ rt, Mirror rt → Q (disposeProperty rt tp))
    (d : Nat → Runtime → Runtime × List Event)
    (hdp : ∀ s rt, Q rt → Q ((d s rt).1))
    (hdm : ∀ s rt, Mirror rt → Mirror ((d s rt).1))
    (hdmaster : ∀ s rt t props, Mirror rt → lookupA t rt.scopes = some props →
      tp ∈ props → Q ((d s rt).1) ∨ lookupA t ((d s rt).1).scopes = some props)
    (s : Nat) (rt : Runtime) (t : Nat) (props : List ScopeProperty)
    (hM : Mirror rt) (hl : lookupA t rt.scopes = some props) (hmem : tp ∈ props) :
    Q ((disposeBody d s rt).1) ∨
      lookupA t ((disposeBody d s rt).1).scopes = some props := by
  rw [disposeBody_fst]
  have hM1 : Mirror (takeChildren s rt).2 := hM
  have hl1 : lookupA t ((takeChildren s rt).2).scopes = some props := hl
  rcases q_disposeListF_master Q tp d hdp hdm hdmaster (takeChildren s rt).1
      (takeChildren s rt).2 t props hM1 hl1 hmem with hQ | hl2
  · left
    apply q_disposeProperties_pres Q hq1
    refine hq2 (takeCleanups s
      (disposeListF d (takeChildren s rt).1 (takeChildren s rt).2).1).2 _ rfl rfl ?_
    exact hq2 (disposeListF d (takeChildren s rt).1 (takeChildren s rt).2).1 _
      rfl rfl hQ
  · have hM2 := mirror_disposeListF d hdm (takeChildren s rt).1 (takeChildren s rt).2 hM1
    by_cases hts : t = s
    · subst hts
      left
      have howned : (takeOwned t (takeCleanups t
          (disposeListF d (takeChildren t rt).1 (takeChildren t rt).2).1).2).1 = props := by
        show (lookupA t ((takeCleanups t
          (disposeListF d (takeChildren t rt).1 (takeChildren t rt).2).1).2).scopes).getD []
            = props
        have hl3 : lookupA t ((takeCleanups t
            (disposeListF d (takeChildren t rt).1 (takeChildren t rt).2).1).2).scopes
              = some props := hl2
        rw [hl3]
        rfl
      rw [howned]
      apply q_disposeProperties_master Q tp hq1 hq3 props _ ?_ hmem
      exact hM2
    · right
      rw [disposeProperties_scopes]
      show lookupA t (removeA s ((takeCleanups s
        (disposeListF d (takeChildren s rt).1 (takeChildren s rt).2).1).2).scopes)
          = some props
      rw [lookupA_removeA_ne hts]
      exact hl2

theorem q_dispose_master (Q : Runtime → Prop) (tp : ScopeProperty)
    (hq1 : ∀ rt p, Q rt → Q (disposeProperty rt p))
    (hq2 : ∀ a b : Runtime, b.effects = a.effects →
      b.effect_sources = a.effect_sources → Q a → Q b)
    (hq3 : ∀ rt, Mirror rt → Q (disposeProperty rt tp)) :
    ∀ (fuel s : Nat) (rt : Runtime) (t : Nat) (props : List ScopeProperty),
      Mirror rt → lookupA t rt.scopes = some props → tp ∈ props →
      Q ((dispose fuel s rt).1) ∨
        lookupA t ((dispose fuel s rt).1).scopes = some props := by
  intro fuel
  induction fuel with
  | zero => intro s rt t props _ hl _; exact Or.inr hl
  | succ fuel ih =>
    intro s rt t props hM hl hmem
    rw [dispose_succ]
    exact q_disposeBody_master Q tp hq1 hq2 hq3 (dispose fuel)
      (q_dispose_pres Q hq1 hq2 fuel) (mirror_dispose fuel)
      (fun s' rt' t' props' => ih s' rt' t' props') s rt t props hM hl hmem


/-! ### Disposal removes the entries of the disposed scope -/

theorem disposeBody_scopes_self_none (d : Nat → Runtime → Runtime × List Event)
    (s : Nat) (rt : Runtime) :
    lookupA s ((disposeBody d s rt).1).scopes = none := by
  rw [disposeBody_fst, disposeProperties_scopes]
  exact lookupA_removeA_self s _

theorem disposeBody_cleanups_self_none (d : Nat → Runtime → Runtime × List Event)
    (s : Nat) (rt : Runtime) :
    lookupA s ((disposeBody d s rt).1).scope_cleanups = none := by
  rw [disposeBody_fst, disposeProperties_cleanups]
  exact lookupA_removeA_self s _

theorem disposeBody_children_self_none (d : Nat → Runtime → Runtime × List Event)
    (hd : ∀ s rt, Shrinks rt ((d s rt).1)) (s : Nat) (rt : Runtime) :
    lookupA s ((disposeBody d s rt).1).scope_children = none := by
  rw [disposeBody_fst, disposeProperties_children]
  rcases hl : lookupA s ((disposeListF d (takeChildren s rt).1
      (takeChildren s rt).2).1).scope_children with _ | v
  · exact hl
  · exfalso
    have h2 := (shrinks_disposeListF d hd (takeChildren s rt).1
      (takeChildren s rt).2).2.1 s v hl
    have h3 : lookupA s (removeA s rt.scope_children) = some v := h2
    rw [lookupA_removeA_self] at h3
    cases h3

theorem dispose_scopes_self_none (fuel s : Nat) (rt : Runtime) :
    lookupA s ((dispose (fuel + 1) s rt).1).scopes = none := by
  rw [dispose_succ]
  exact disposeBody_scopes_self_none (dispose fuel) s rt

theorem dispose_cleanups_self_none (fuel s : Nat) (rt : Runtime) :
    lookupA s ((dispose (fuel + 1) s rt).1).scope_cleanups = none := by
  rw [dispose_succ]
  exact disposeBody_cleanups_self_none (dispose fuel) s rt

theorem dispose_children_self_none (fuel s : Nat) (rt : Runtime) :
    lookupA s ((dispose (fuel + 1) s rt).1).scope_children = none := by
  rw [dispose_succ]
  exact disposeBody_children_self_none (dispose fuel)
    (fun s' rt' => shrinks_dispose fuel s' rt') s rt

theorem takeChildren_of_none {s : Nat} {rt : Runtime}
    (h : lookupA s rt.scope_children = none) : takeChildren s rt = ([], rt) := by
  unfold takeChildren
  rw [h, removeA_of_lookupA_none h]
  rfl

theorem takeCleanups_of_none {s : Nat} {rt : Runtime}
    (h : lookupA s rt.scope_cleanups = none) : takeCleanups s rt = ([], rt) := by
  unfold takeCleanups
  rw [h, removeA_of_lookupA_none h]
  rfl

theorem takeOwned_of_none {s : Nat} {rt : Runtime}
    (h : lookupA s rt.scopes = none) : takeOwned s rt = ([], rt) := by
  unfold takeOwned
  rw [h, removeA_of_lookupA_none h]
  rfl

/-- Disposing a scope with no children entry, no cleanups entry and no slab
entry does nothing: the runtime is unchanged and no event fires. -/
theorem disposeBody_of_disposed (d : Nat → Runtime → Runtime × List Event)
    (s : Nat) (rt : Runtime)
    (h1 : lookupA s rt.scope_children = none)
    (h2 : lookupA s rt.scope_cleanups = none)
    (h3 : lookupA s rt.scopes = none) :
    disposeBody d s rt = (rt, []) := by
  unfold disposeBody
  rw [takeChildren_of_none h1]
  show (let r := disposeListF d [] rt; let k := takeCleanups s r.1;
    let o := takeOwned s k.2;
    (disposeProperties o.2 o.1,
      r.2 ++ k.1.map (Event.cleanup s) ++ o.1.map (Event.remove s))) = (rt, [])
  show (let k := takeCleanups s rt; let o := takeOwned s k.2;
    (disposeProperties o.2 o.1,
      [] ++ k.1.map (Event.cleanup s) ++ o.1.map (Event.remove s))) = (rt, [])
  rw [takeCleanups_of_none h2]
  show (let o := takeOwned s rt;
    (disposeProperties o.2 o.1,
      [] ++ ([] : List Nat).map (Event.cleanup s) ++ o.1.map (Event.remove s)))
        = (rt, [])
  rw [takeOwned_of_none h3]
  rfl

/-- C5: disposing an already-disposed scope is a no-op — after a first
disposal of `s` (with any positive fuel), a second disposal of `s` (with any
positive fuel) returns the runtime unchanged, runs no cleanup and removes
nothing. -/
theorem c5_dispose_idempotent (f g s : Nat) (rt : Runtime) :
    dispose (g + 1) s ((dispose (f + 1) s rt).1) = ((dispose (f + 1) s rt).1, []) := by
  rw [dispose_succ g]
  exact disposeBody_of_disposed (dispose g) s _
    (dispose_children_self_none f s rt)
    (dispose_cleanups_self_none f s rt)
    (dispose_scopes_self_none f s rt)

/-! ### C1: which subscription edges does disposal sever? -/

/-- A runtime in which scope 1 owns effect 7, which subscribes to the
longer-lived signal 3 (owned by no disposed scope): both edge directions are
present. -/
def rtCex : Runtime :=
  { scopes := [(1, [ScopeProperty.effect 7])],
    signals := [3],
    signal_subscribers := [(3, [7])],
    effects := [7],
    effect_sources := [(7, [3])] }

/-- C1 counterexample: disposing scope 1, which owns effect 7 subscribed to
the surviving signal 3, removes the effect and its source set but leaves 7 in
the subscriber set of signal 3 — the effect direction of the claimed bidirectional
severing does not happen. -/
theorem c1_counterexample :
    ScopeProperty.effect 7 ∈ [ScopeProperty.effect 7] ∧
      lookupA 1 rtCex.scopes = some [ScopeProperty.effect 7] ∧
      3 ∈ ((dispose 1 1 rtCex).1).signals ∧
      7 ∉ ((dispose 1 1 rtCex).1).effects ∧
      7 ∈ (lookupA 3 ((dispose 1 1 rtCex).1).signal_subscribers).getD [] := by
  decide

/-- C1 as amended: after disposing scope `s` under the documented
bidirectional-edge invariant, for every signal it owned no remaining
remaining effect still has that signal id in its source set; every effect it owned
is removed from the effect slab and from the source map, but surviving
signals' subscriber sets are NOT purged of those effect ids (see the
counterexample). -/
theorem c1_dispose_severs_signal_edges (f s : Nat) (rt : Runtime)
    (props : List ScopeProperty) (hM : Mirror rt)
    (hs : lookupA s rt.scopes = some props) :
    (∀ sid, ScopeProperty.signal sid ∈ props →
      NoSrc sid ((dispose (f + 1) s rt).1)) ∧
    (∀ eid, ScopeProperty.effect eid ∈ props →
      NoEff eid ((dispose (f + 1) s rt).1)) := by
  constructor
  · intro sid hmem
    have hq1 : ∀ rt' p, NoSrc sid rt' → NoSrc sid (disposeProperty rt' p) :=
      fun rt' p h => noSrc_of_shrinks h (shrinks_disposeProperty rt' p)
    have hq2 : ∀ a b : Runtime, b.effects = a.effects →
        b.effect_sources = a.effect_sources → NoSrc sid a → NoSrc sid b := by
      intro a b _ hes h p hp hx
      rw [hes] at hp
      exact h p hp hx
    have hq3 : ∀ rt', Mirror rt' →
        NoSrc sid (disposeProperty rt' (ScopeProperty.signal sid)) :=
      fun rt' hM' => noSrc_establish hM' sid
    rcases q_dispose_master (NoSrc sid) (ScopeProperty.signal sid) hq1 hq2 hq3
        (f + 1) s rt s props hM hs hmem with hQ | hl
    · exact hQ
    · exact Option.noConfusion ((dispose_scopes_self_none f s rt).symm.trans hl)
  · intro eid hmem
    have hq1 : ∀ rt' p, NoEff eid rt' → NoEff eid (disposeProperty rt' p) :=
      fun rt' p h => noEff_of_shrinks h (shrinks_disposeProperty rt' p)
    have hq2 : ∀ a b : Runtime, b.effects = a.effects →
        b.effect_sources = a.effect_sources → NoEff eid a → NoEff eid b := by
      intro a b he hes h
      constructor
      · rw [he]
        exact h.1
      · intro p hp
        rw [hes] at hp
        exact h.2 p hp
    have hq3 : ∀ rt', Mirror rt' →
        NoEff eid (disposeProperty rt' (ScopeProperty.effect eid)) :=
      fun rt' _ => noEff_establish rt' eid
    rcases q_dispose_master (NoEff eid) (ScopeProperty.effect eid) hq1 hq2 hq3
        (f + 1) s rt s props hM hs hmem with hQ | hl
    · exact hQ
    · exact Option.noConfusion ((dispose_scopes_self_none f s rt).symm.trans hl)

/-- A runtime in which scope 1 owns both signal 3 and effect 7, with the
bidirectional edge 3 and 7 present in both maps. -/
def rtOwn : Runtime :=
  { scopes := [(1, [ScopeProperty.signal 3, ScopeProperty.effect 7])],
    signals := [3],
    signal_subscribers := [(3, [7])],
    effects := [7],
    effect_sources := [(7, [3])] }

/-- Witness for (amended) C1 at a concrete runtime owning a signal and an
effect. -/
theorem c1_witness :
    NoSrc 3 ((dispose 1 1 rtOwn).1) ∧ NoEff 7 ((dispose 1 1 rtOwn).1) := by
  have h := c1_dispose_severs_signal_edges 0 1 rtOwn
    [ScopeProperty.signal 3, ScopeProperty.effect 7]
    (by unfold Mirror; decide) (by decide)
  exact ⟨h.1 3 (by decide), h.2 7 (by decide)⟩


/-! ### Reachability in the ownership tree and the order of disposal -/

/-- Reachability along the children map: `Reach m a b` holds when `b` is `a`
itself or a descendant of `a` through registered child edges. -/
inductive Reach (m : List (Nat × List Nat)) : Nat → Nat → Prop
  | refl (a : Nat) : Reach m a a
  | head {a b c : Nat} {cs : List Nat} (hl : lookupA a m = some cs) (hb : b ∈ cs)
      (hr : Reach m b c) : Reach m a c

theorem reach_mono {m m' : List (Nat × List Nat)}
    (hsub : ∀ k v, lookupA k m' = some v → lookupA k m = some v) {a b : Nat}
    (h : Reach m' a b) : Reach m a b := by
  induction h with
  | refl a => exact Reach.refl a
  | head hl hb _ ih => exact Reach.head (hsub _ _ hl) hb ih

/-- A rank function certifying that every registered child edge strictly
increases rank (so the children map is cycle-free). -/
def ChildRank (rank : Nat → Nat) (m : List (Nat × List Nat)) : Prop :=
  ∀ p ∈ m, ∀ c ∈ p.2, rank p.1 < rank c

theorem childRank_le_of_reach {rank : Nat → Nat} {m : List (Nat × List Nat)}
    (hr : ChildRank rank m) {a b : Nat} (h : Reach m a b) : rank a ≤ rank b := by
  induction h with
  | refl a => exact le_refl _
  | head hl hb _ ih =>
    exact le_of_lt (lt_of_lt_of_le (hr _ (lookupA_mem hl) _ hb) ih)

/-- Every event of disposing a list of scopes is tagged with a scope
reachable from one of them. -/
theorem trace_reach_disposeListF (d : Nat → Runtime → Runtime × List Event)
    (hd : ∀ c rt, ∀ e ∈ (d c rt).2, Reach rt.scope_children c (eventScope e))
    (hds : ∀ s rt, Shrinks rt ((d s rt).1)) :
    ∀ (cs : List Nat) (rt : Runtime), ∀ e ∈ (disposeListF d cs rt).2,
      ∃ c ∈ cs, Reach rt.scope_children c (eventScope e) := by
  intro cs
  induction cs with
  | nil => intro rt e he; exact absurd he (List.not_mem_nil _)
  | cons c rest ih =>
    intro rt e he
    have he2 : e ∈ (d c rt).2 ++ (disposeListF d rest ((d c rt).1)).2 := he
    rcases List.mem_append.mp he2 with h | h
    · exact ⟨c, List.mem_cons_self _ _, hd c rt e h⟩
    · rcases ih ((d c rt).1) e h with ⟨c', hc', hre⟩
      exact ⟨c', List.mem_cons_of_mem _ hc',
        reach_mono (fun k v hv => (hds c rt).2.1 k v hv) hre⟩

/-- Every event of one disposal body is tagged with a scope reachable from
the disposed scope. -/
theorem trace_reach_disposeBody (d : Nat → Runtime → Runtime × List Event)
    (hd : ∀ c rt, ∀ e ∈ (d c rt).2, Reach rt.scope_children c (eventScope e))
    (hds : ∀ s rt, Shrinks rt ((d s rt).1)) (s : Nat) (rt : Runtime) :
    ∀ e ∈ (disposeBody d s rt).2, Reach rt.scope_children s (eventScope e) := by
  intro e he
  rw [disposeBody_snd] at he
  rcases List.mem_append.mp he with he2 | he3
  · rcases List.mem_append.mp he2 with heA | heB
    · rcases trace_reach_disposeListF d hd hds (takeChildren s rt).1
          (takeChildren s rt).2 e heA with ⟨c, hc, hre⟩
      rcases hcs : lookupA s rt.scope_children with _ | cs0
      · have hc2 : c ∈ ((none : Option (List Nat)).getD []) := by
          rw [← hcs]
          exact hc
        exact absurd hc2 (List.not_mem_nil _)
      · have hc2 : c ∈ cs0 := by
          have : c ∈ (lookupA s rt.scope_children).getD [] := hc
          rw [hcs] at this
          exact this
        have hre2 : Reach rt.scope_children c (eventScope e) :=
          reach_mono (fun k v hv => lookupA_removeA_some hv) hre
        exact Reach.head hcs hc2 hre2
    · rcases List.mem_map.mp heB with ⟨k, _, hk⟩
      rw [← hk]
      exact Reach.refl s
  · rcases List.mem_map.mp he3 with ⟨p, _, hp⟩
    rw [← hp]
    exact Reach.refl s

/-- Every event of `dispose` is tagged with a scope reachable from the
disposed scope. -/
theorem trace_reach_dispose : ∀ (fuel c : Nat) (rt : Runtime),
    ∀ e ∈ (dispose fuel c rt).2, Reach rt.scope_children c (eventScope e) := by
  intro fuel
  induction fuel with
  | zero => intro c rt e he; exact absurd he (List.not_mem_nil _)
  | succ fuel ih =>
    intro c rt e he
    rw [dispose_succ] at he
    exact trace_reach_disposeBody (dispose fuel) (fun c' rt' => ih c' rt')
      (fun s' rt' => shrinks_dispose fuel s' rt') c rt e he

/-- Disposing scopes that cannot reach `t` leaves the cleanup and slab
entries of `t` untouched. -/
theorem lp_disposeListF (d : Nat → Runtime → Runtime × List Event)
    (hdp : ∀ c rt t, ¬Reach rt.scope_children c t →
      lookupA t ((d c rt).1).scope_cleanups = lookupA t rt.scope_cleanups ∧
      lookupA t ((d c rt).1).scopes = lookupA t rt.scopes)
    (hds : ∀ s rt, Shrinks rt ((d s rt).1)) :
    ∀ (cs : List Nat) (rt : Runtime) (t : Nat),
      (∀ c ∈ cs, ¬Reach rt.scope_children c t) →
      lookupA t ((disposeListF d cs rt).1).scope_cleanups
          = lookupA t rt.scope_cleanups ∧
      lookupA t ((disposeListF d cs rt).1).scopes = lookupA t rt.scopes := by
  intro cs
  induction cs with
  | nil => intro rt t _; exact ⟨rfl, rfl⟩
  | cons c rest ih =>
    intro rt t hall
    have h1 := hdp c rt t (hall c (List.mem_cons_self _ _))
    have hall2 : ∀ c' ∈ rest, ¬Reach ((d c rt).1).scope_children c' t :=
      fun c' hc' hre => hall c' (List.mem_cons_of_mem _ hc')
        (reach_mono (fun k v hv => (hds c rt).2.1 k v hv) hre)
    have h2 := ih ((d c rt).1) t hall2
    exact ⟨h2.1.trans h1.1, h2.2.trans h1.2⟩

/-- Disposing a scope that cannot reach `t` leaves the cleanup and slab
entries of `t` untouched. -/
theorem lp_disposeBody (d : Nat → Runtime → Runtime × List Event)
    (hdp : ∀ c rt t, ¬Reach rt.scope_children c t →
      lookupA t ((d c rt).1).scope_cleanups = lookupA t rt.scope_cleanups ∧
      lookupA t ((d c rt).1).scopes = lookupA t rt.scopes)
    (hds : ∀ s rt, Shrinks rt ((d s rt).1)) (c : Nat) (rt : Runtime) (t : Nat)
    (hnr : ¬Reach rt.scope_children c t) :
    lookupA t ((disposeBody d c rt).1).scope_cleanups
        = lookupA t rt.scope_cleanups ∧
    lookupA t ((disposeBody d c rt).1).scopes = lookupA t rt.scopes := by
  have hct : t ≠ c := fun h => hnr (by rw [h]; exact Reach.refl c)
  have hall : ∀ c' ∈ (takeChildren c rt).1,
      ¬Reach ((takeChildren c rt).2).scope_children c' t := by
    intro c' hc' hre
    rcases hcs : lookupA c rt.scope_children with _ | cs0
    · have : c' ∈ ((none : Option (List Nat)).getD []) := by
        rw [← hcs]
        exact hc'
      exact absurd this (List.not_mem_nil _)
    · have hc2 : c' ∈ cs0 := by
        have : c' ∈ (lookupA c rt.scope_children).getD [] := hc'
        rw [hcs] at this
        exact this
      have hre2 : Reach rt.scope_children c' t :=
        reach_mono (fun k v hv => lookupA_removeA_some hv) hre
      exact hnr (Reach.head hcs hc2 hre2)
  have hlp := lp_disposeListF d hdp hds (takeChildren c rt).1 (takeChildren c rt).2
    t hall
  constructor
  · rw [disposeBody_fst, disposeProperties_cleanups]
    show lookupA t (removeA c ((disposeListF d (takeChildren c rt).1
      (takeChildren c rt).2).1).scope_cleanups) = lookupA t rt.scope_cleanups
    rw [lookupA_removeA_ne hct, hlp.1]
    rfl
  · rw [disposeBody_fst, disposeProperties_scopes]
    show lookupA t (removeA c ((disposeListF d (takeChildren c rt).1
      (takeChildren c rt).2).1).scopes) = lookupA t rt.scopes
    rw [lookupA_removeA_ne hct, hlp.2]
    rfl

/-- Disposal with any fuel leaves the entries of unreachable scopes
untouched. -/
theorem lp_dispose : ∀ (fuel c : Nat) (rt : Runtime) (t : Nat),
    ¬Reach rt.scope_children c t →
    lookupA t ((dispose fuel c rt).1).scope_cleanups
        = lookupA t rt.scope_cleanups ∧
    lookupA t ((dispose fuel c rt).1).scopes = lookupA t rt.scopes := by
  intro fuel
  induction fuel with
  | zero => intro c rt t _; exact ⟨rfl, rfl⟩
  | succ fuel ih =>
    intro c rt t hnr
    rw [dispose_succ]
    exact lp_disposeBody (dispose fuel) (fun c' rt' t' => ih c' rt' t')
      (fun s' rt' => shrinks_dispose fuel s' rt') c rt t hnr

/-- The decomposition of one disposal run under a cycle-free children map:
the trace is the recursive disposal of the children, followed by the cleanup
events of exactly the callbacks registered on `s` in order, followed by the
removal events of exactly the properties owned by `s` in order, and no event
of the child part is tagged with `s`. -/
theorem dispose_trace_decomp (rank : Nat → Nat) (f s : Nat) (rt : Runtime)
    (hrank : ChildRank rank rt.scope_children) :
    (dispose (f + 1) s rt).2 =
      (disposeListF (dispose f) (takeChildren s rt).1 (takeChildren s rt).2).2
        ++ ((lookupA s rt.scope_cleanups).getD []).map (Event.cleanup s)
        ++ ((lookupA s rt.scopes).getD []).map (Event.remove s) ∧
    ∀ e ∈ (disposeListF (dispose f) (takeChildren s rt).1 (takeChildren s rt).2).2,
      eventScope e ≠ s := by
  have hall : ∀ c ∈ (takeChildren s rt).1,
      ¬Reach ((takeChildren s rt).2).scope_children c s := by
    intro c hc hre
    rcases hcs : lookupA s rt.scope_children with _ | cs0
    · have : c ∈ ((none : Option (List Nat)).getD []) := by
        rw [← hcs]
        exact hc
      exact absurd this (List.not_mem_nil _)
    · have hc2 : c ∈ cs0 := by
        have : c ∈ (lookupA s rt.scope_children).getD [] := hc
        rw [hcs] at this
        exact this
      have hre2 : Reach rt.scope_children c s :=
        reach_mono (fun k v hv => lookupA_removeA_some hv) hre
      have hlow : rank s < rank c := hrank _ (lookupA_mem hcs) c hc2
      have := childRank_le_of_reach hrank hre2
      omega
  have hlp := lp_disposeListF (dispose f)
    (fun c' rt' t' => lp_dispose f c' rt' t')
    (fun s' rt' => shrinks_dispose f s' rt')
    (takeChildren s rt).1 (takeChildren s rt).2 s hall
  constructor
  · rw [dispose_succ, disposeBody_snd]
    have hk : (takeCleanups s ((disposeListF (dispose f) (takeChildren s rt).1
        (takeChildren s rt).2).1)).1 = (lookupA s rt.scope_cleanups).getD [] := by
      show (lookupA s ((disposeListF (dispose f) (takeChildren s rt).1
        (takeChildren s rt).2).1).scope_cleanups).getD []
          = (lookupA s rt.scope_cleanups).getD []
      rw [hlp.1]
      rfl
    have ho : (takeOwned s ((takeCleanups s ((disposeListF (dispose f)
        (takeChildren s rt).1 (takeChildren s rt).2).1)).2)).1
          = (lookupA s rt.scopes).getD [] := by
      show (lookupA s (removeA s ((disposeListF (dispose f) (takeChildren s rt).1
        (takeChildren s rt).2).1).scope_cleanups, ((disposeListF (dispose f)
        (takeChildren s rt).1 (takeChildren s rt).2).1)).2.scopes).getD []
          = (lookupA s rt.scopes).getD []
      rw [hlp.2]
      rfl
    rw [hk, ho]
  · intro e he
    rcases trace_reach_disposeListF (dispose f)
        (fun c' rt' => trace_reach_dispose f c' rt')
        (fun s' rt' => shrinks_dispose f s' rt')
        (takeChildren s rt).1 (takeChildren s rt).2 e he with ⟨c, hc, hre⟩
    rcases hcs : lookupA s rt.scope_children with _ | cs0
    · have : c ∈ ((none : Option (List Nat)).getD []) := by
        rw [← hcs]
        exact hc
      exact absurd this (List.not_mem_nil _)
    · have hc2 : c ∈ cs0 := by
        have : c ∈ (lookupA s rt.scope_children).getD [] := hc
        rw [hcs] at this
        exact this
      have hre2 : Reach rt.scope_children c (eventScope e) :=
        reach_mono (fun k v hv => lookupA_removeA_some hv) hre
      have hlow : rank s < rank c := hrank _ (lookupA_mem hcs) c hc2
      have hle := childRank_le_of_reach hrank hre2
      intro heq
      rw [heq] at hle
      omega


/-- C3: under a cycle-free children map, disposing a scope proceeds in
exactly the order of the claim — first the recursive disposal of the child
scopes (whose events are never tagged with the scope itself), then the
cleanup events of exactly the callbacks registered on the scope, in stored
order, and only after that the removal events of exactly the properties
owned by the scope, in stored order. -/
theorem c3_dispose_order (rank : Nat → Nat) (f s : Nat) (rt : Runtime)
    (hrank : ChildRank rank rt.scope_children) :
    (dispose (f + 1) s rt).2 =
      (disposeListF (dispose f) (takeChildren s rt).1 (takeChildren s rt).2).2
        ++ ((lookupA s rt.scope_cleanups).getD []).map (Event.cleanup s)
        ++ ((lookupA s rt.scopes).getD []).map (Event.remove s) ∧
    ∀ e ∈ (disposeListF (dispose f) (takeChildren s rt).1 (takeChildren s rt).2).2,
      eventScope e ≠ s :=
  dispose_trace_decomp rank f s rt hrank

/-- A two-scope runtime: scope 0 owns signal 3 and cleanup 10, its child
scope 1 owns effect 7 and cleanup 11, with the bidirectional edge between
signal 3 and effect 7. -/
def rtTree : Runtime :=
  { scopes := [(0, [ScopeProperty.signal 3]), (1, [ScopeProperty.effect 7])],
    scope_children := [(0, [1])],
    scope_cleanups := [(0, [10]), (1, [11])],
    signals := [3],
    signal_subscribers := [(3, [7])],
    effects := [7],
    effect_sources := [(7, [3])] }

/-- Witness for C3 at the concrete two-scope runtime. -/
theorem c3_witness :
    (dispose (1 + 1) 0 rtTree).2 =
      (disposeListF (dispose 1) (takeChildren 0 rtTree).1 (takeChildren 0 rtTree).2).2
        ++ ((lookupA 0 rtTree.scope_cleanups).getD []).map (Event.cleanup 0)
        ++ ((lookupA 0 rtTree.scopes).getD []).map (Event.remove 0) ∧
    ∀ e ∈ (disposeListF (dispose 1) (takeChildren 0 rtTree).1
        (takeChildren 0 rtTree).2).2, eventScope e ≠ 0 :=
  c3_dispose_order (fun n => n) 1 0 rtTree (by unfold ChildRank; decide)

/-! ### C8: cleanup callbacks run in registration order -/

/-- Register the cleanup callbacks `ks` on scope `s` in order via
`on_cleanup`, propagating the panic of registering on a disposed scope. -/
def regAll (s : Nat) : List Nat → Runtime → Except String Runtime
  | [], rt => Except.ok rt
  | k :: ks, rt =>
    match on_cleanup s k rt with
    | Except.ok rt1 => regAll s ks rt1
    | Except.error e => Except.error e

/-- Successful registration leaves the scope slab and children map unchanged
and appends the callbacks, in order, to the cleanup entry of the scope. -/
theorem regAll_spec (s : Nat) : ∀ (ks : List Nat) (rt rt' : Runtime),
    regAll s ks rt = Except.ok rt' →
    rt'.scopes = rt.scopes ∧ rt'.scope_children = rt.scope_children ∧
    (lookupA s rt'.scope_cleanups).getD []
      = (lookupA s rt.scope_cleanups).getD [] ++ ks := by
  intro ks
  induction ks with
  | nil =>
    intro rt rt' h
    cases h
    exact ⟨rfl, rfl, by simp⟩
  | cons k ks ih =>
    intro rt rt' h
    by_cases halive : (lookupA s rt.scopes).isSome = true
    · have hok : on_cleanup s k rt
          = Except.ok { rt with scope_cleanups := insertAppend s k rt.scope_cleanups } := by
        simp [on_cleanup, halive]
      rw [regAll, hok] at h
      rcases ih _ rt' h with ⟨h1, h2, h3⟩
      refine ⟨h1, h2, ?_⟩
      rw [h3]
      show (lookupA s (insertAppend s k rt.scope_cleanups)).getD [] ++ ks
        = (lookupA s rt.scope_cleanups).getD [] ++ (k :: ks)
      rw [lookupA_insertAppend_self]
      simp
    · have herr : on_cleanup s k rt
          = Except.error "trying to clean up a Scope that has already been disposed" := by
        simp [on_cleanup, halive]
      rw [regAll, herr] at h
      cases h

/-- Is this event a cleanup event of scope `s`? -/
def isCleanupOf (s : Nat) : Event → Bool
  | Event.cleanup t _ => t == s
  | Event.remove _ _ => false

theorem filter_isCleanupOf_map_cleanup (s : Nat) (ks : List Nat) :
    (ks.map (Event.cleanup s)).filter (isCleanupOf s) = ks.map (Event.cleanup s) := by
  induction ks with
  | nil => rfl
  | cons k ks ih =>
    show List.filter (isCleanupOf s) (Event.cleanup s k :: ks.map (Event.cleanup s))
      = Event.cleanup s k :: ks.map (Event.cleanup s)
    rw [List.filter_cons_of_pos]
    · rw [ih]
    · show (s == s) = true
      simp

theorem filter_isCleanupOf_map_remove (s : Nat) (ps : List ScopeProperty) :
    (ps.map (Event.remove s)).filter (isCleanupOf s) = [] := by
  induction ps with
  | nil => rfl
  | cons p ps ih =>
    show List.filter (isCleanupOf s) (Event.remove s p :: ps.map (Event.remove s)) = []
    rw [List.filter_cons_of_neg]
    · exact ih
    · show ¬(false = true)
      simp

theorem filter_isCleanupOf_of_ne (s : Nat) : ∀ (tr : List Event),
    (∀ e ∈ tr, eventScope e ≠ s) → tr.filter (isCleanupOf s) = [] := by
  intro tr
  induction tr with
  | nil => intro _; rfl
  | cons e tr ih =>
    intro h
    have he := h e (List.mem_cons_self _ _)
    have hfalse : isCleanupOf s e = false := by
      cases e with
      | cleanup t k =>
        have : t ≠ s := he
        simp [isCleanupOf, this]
      | remove t p => rfl
    rw [List.filter_cons_of_neg (by rw [hfalse]; simp)]
    exact ih (fun e' he' => h e' (List.mem_cons_of_mem _ he'))

/-- C8: if cleanups `ks` are registered on scope `s` via `on_cleanup`, in
that order, on a runtime where `s` had no cleanups yet and whose children
map is cycle-free, then disposing `s` runs exactly those callbacks, each
exactly once, in registration order: the cleanup events of `s` in the
disposal trace are precisely `ks` in order. -/
theorem c8_cleanups_run_in_order (rank : Nat → Nat) (s : Nat) (rt rt' : Runtime)
    (ks : List Nat) (f : Nat)
    (hrank : ChildRank rank rt.scope_children)
    (hnone : lookupA s rt.scope_cleanups = none)
    (hreg : regAll s ks rt = Except.ok rt') :
    ((dispose (f + 1) s rt').2).filter (isCleanupOf s) = ks.map (Event.cleanup s) := by
  obtain ⟨hsc, hch, hcl⟩ := regAll_spec s ks rt rt' hreg
  have hrank2 : ChildRank rank rt'.scope_children := by
    rw [hch]
    exact hrank
  obtain ⟨hdec, hne⟩ := dispose_trace_decomp rank f s rt' hrank2
  have hks : (lookupA s rt'.scope_cleanups).getD [] = ks := by
    rw [hcl, hnone]
    rfl
  rw [hdec, hks, List.filter_append, List.filter_append,
    filter_isCleanupOf_of_ne s _ hne, filter_isCleanupOf_map_cleanup,
    filter_isCleanupOf_map_remove]
  simp

/-- A runtime with a single live scope 0 and nothing else. -/
def rtReg : Runtime := { scopes := [(0, [])] }

/-- The runtime after registering cleanups 4 and 5 on scope 0 of `rtReg`. -/
def rtReg2 : Runtime := { scopes := [(0, [])], scope_cleanups := [(0, [4, 5])] }

/-- Witness for C8: registering cleanups 4 then 5 and disposing runs exactly
those two, in order. -/
theorem c8_witness :
    ((dispose (0 + 1) 0 rtReg2).2).filter (isCleanupOf 0)
      = [4, 5].map (Event.cleanup 0) :=
  c8_cleanups_run_in_order (fun n => n) 0 rtReg rtReg2 [4, 5] 0
    (by unfold ChildRank; decide) rfl rfl

end Leptos
